import Mathlib

/-!
Shallow embedding of `platformio/managers/lib.py` (class `LibraryManager`)
and proofs about the claims of the specification.

External collaborators (the `semantic_version` library, `datetime.strptime`,
the registry HTTP api, `click`/`app` presentation and settings, and the
`BasePkgManager` package store from `package.py`, which is not part of the
source tree) are modelled as explicit function parameters / record fields,
exactly at the call boundary the source uses.
-/

set_option autoImplicit false

namespace PlatformioLib

/-! ## Python value model

Dependency declarations and search filters in the source are Python dicts
whose values are strings or lists of strings (tag lists produced by the
normalizer, version strings, names).  A dict is modelled as an association
list in iteration order; Python dicts have unique keys.
-/

/-! ### String primitives

Lean core's `String` functions (`splitOn`, `startsWith`, `trim`, ...) are
defined by well-founded recursion and do not reduce inside the kernel, so
the Python string operations the source uses are modelled here directly on
the character list of the string.  Each helper documents the Python
operation it stands for. -/

/-- Python `c in s` for a one-character needle. -/
def pyCharsContains (s : String) (c : Char) : Bool :=
  s.data.contains c

/-- Python `s[:-1]`. -/
def pySliceToLast (s : String) : String :=
  ⟨s.data.dropLast⟩

/-- Python `s.replace(a, b)` for one-character `a` and `b`. -/
def pyReplaceChar (s : String) (a b : Char) : String :=
  ⟨s.data.map (fun x => if x = a then b else x)⟩

/-- Python `s.split(c)` for a one-character separator: every occurrence
splits, empty tokens are kept. -/
def splitOnCharAux (c : Char) : List Char → List Char → List String
  | [], acc => [⟨acc.reverse⟩]
  | x :: rest, acc =>
    if x = c then ⟨acc.reverse⟩ :: splitOnCharAux c rest []
    else splitOnCharAux c rest (x :: acc)

/-- Python `s.split(c)` for a one-character separator. -/
def pySplitChar (s : String) (c : Char) : List String :=
  splitOnCharAux c s.data []

/-- Python `s.strip()`: whitespace removed from both ends. -/
def pyStrip (s : String) : String :=
  ⟨((s.data.dropWhile Char.isWhitespace).reverse.dropWhile Char.isWhitespace).reverse⟩

/-- Python `s.startswith(pre)`. -/
def pyStartsWith (s pre : String) : Bool :=
  pre.data.isPrefixOf s.data

/-- Python `s.endswith(suf)`. -/
def pyEndsWith (s suf : String) : Bool :=
  suf.data.reverse.isPrefixOf s.data.reverse

/-- Python `s[n:]`. -/
def pyDropStr (s : String) (n : Nat) : String :=
  ⟨s.data.drop n⟩

/-- Python `sep.join(parts)`. -/
def pyJoin (sep : String) : List String → String
  | [] => ""
  | [x] => x
  | x :: rest => x ++ sep ++ pyJoin sep rest

/-- Decimal digits of a nonempty all-digit character list, `none` otherwise. -/
def natFromDigits? (l : List Char) : Option Nat :=
  if l ≠ [] ∧ l.all Char.isDigit then
    some (l.foldl (fun n c => n * 10 + (c.toNat - 48)) 0)
  else none

/-- Python `int(s)` restricted to an unsigned decimal literal, as `Option`. -/
def pyToNat? (s : String) : Option Nat :=
  natFromDigits? s.data

/-- Python `int(s)` for an optionally `-`-signed decimal literal, as
`Option` (`none` models the `ValueError`). -/
def pyToInt? (s : String) : Option Int :=
  match s.data with
  | '-' :: rest => (natFromDigits? rest).map (fun n => -(n : Int))
  | l => (natFromDigits? l).map (fun n => (n : Int))

/-- Decimal digits of `n`, most significant first; `fuel` bounds the digit
count (any `fuel > n` is enough). -/
def natDigitsAux : Nat → Nat → List Char → List Char
  | 0, _, acc => acc
  | fuel + 1, n, acc =>
    let d := Char.ofNat (48 + n % 10)
    if n < 10 then d :: acc else natDigitsAux fuel (n / 10) (d :: acc)

/-- Python `str(n)` / `"%d" % n` for a natural number. -/
def pyNatToStr (n : Nat) : String :=
  ⟨natDigitsAux (n + 1) n []⟩

/-- Python `str(i)` / `"%d" % i` for an integer. -/
def pyIntToStr (i : Int) : String :=
  if i < 0 then "-" ++ pyNatToStr i.natAbs else pyNatToStr i.natAbs

/-- A Python value as it occurs in dependency dicts: a string or a list of
strings. -/
inductive PyVal where
  | str (s : String)
  | listStr (l : List String)
deriving DecidableEq, Repr

/-- A Python dict with `PyVal` values, in iteration order. -/
abbrev PyDict := List (String × PyVal)

/-- Python `k in d`. -/
def dictContains : PyDict → String → Bool
  | [], _ => false
  | p :: rest, k => p.1 = k || dictContains rest k

/-- Python `d[k]` / `d.get(k)`: value of the entry with key `k`. -/
def dictGet? : PyDict → String → Option PyVal
  | [], _ => none
  | p :: rest, k => if p.1 = k then some p.2 else dictGet? rest k

/-- Python `d.get(k, dflt)`. -/
def dictGetD (d : PyDict) (k : String) (dflt : PyVal) : PyVal :=
  match dictGet? d k with
  | some v => v
  | none => dflt

/-- Python `del d[k]`. -/
def dictDel : PyDict → String → PyDict
  | [], _ => []
  | p :: rest, k => if p.1 = k then dictDel rest k else p :: dictDel rest k

/-- Python `d[k] = v` for a key already present: replace the value in place. -/
def dictSet : PyDict → String → PyVal → PyDict
  | [], _, _ => []
  | p :: rest, k, v => if p.1 = k then (k, v) :: dictSet rest k v else p :: dictSet rest k v

/-- Python truthiness of a `PyVal` (`""` and `[]` are falsy). -/
def pyValTruthy : PyVal → Bool
  | .str s => s ≠ ""
  | .listStr l => !l.isEmpty

/-! ## `LibraryManager.normalize_dependencies` (lib.py lines 36-58) -/

/-- The raw `dependencies` declaration accepted by `normalize_dependencies`:
`None`, a single dict (with or without a `name` key), or a list of dicts. -/
inductive RawDeps where
  | pynone
  | pydict (d : PyDict)
  | pylist (l : List PyDict)
deriving DecidableEq, Repr

/-- Python truthiness test `not dependencies` (line 38). -/
def RawDeps.falsy : RawDeps → Bool
  | .pynone => true
  | .pydict d => d.isEmpty
  | .pylist l => l.isEmpty

/-- Lines 56-57: `[i.strip() for i in item[k].split(",") if i.strip()]`. -/
def splitTags (s : String) : List String :=
  ((pySplitChar s ',').map pyStrip).filter (fun t => t ≠ "")

/-- Lines 50-57, the body of the tag-field loop for one key `k`.
The source guard is `if k not in item or isinstance(k, list): continue`;
`k` is the literal string `"frameworks"` or `"platforms"`, so
`isinstance(k, list)` is always `False` and the guard reduces to
`k not in item`.  A value `"*"` is deleted, a string value is split on
commas, a list value falls through both branches unchanged. -/
def processTagKey (item : PyDict) (k : String) : PyDict :=
  match dictGet? item k with
  | none => item
  | some (.listStr _) => item
  | some (.str s) =>
    if s = "*" then dictDel item k
    else dictSet item k (.listStr (splitTags s))

/-- Lines 49-57 applied to one item: the tag-field loop over
`("frameworks", "platforms")`.  The source mutates `item` in place; this
function returns the state of the dict after the call. -/
def normalizeItem (item : PyDict) : PyDict :=
  processTagKey (processTagKey item "frameworks") "platforms"

/-- Embedding of `LibraryManager.normalize_dependencies` (lines 36-58), as the returned
list.  The returned items alias the input dicts after their in-place tag
normalization; `normalize_dependencies_post` below gives the final state of
the input object itself. -/
def normalize_dependencies (dependencies : RawDeps) : List PyDict :=
  if dependencies.falsy then []
  else
    let items : List PyDict :=
      match dependencies with
      | .pynone => []
      | .pydict d =>
        if dictContains d "name" then [d]
        else d.map (fun p => [("name", PyVal.str p.1), ("version", p.2)])
      | .pylist l => l.filter (fun d => dictContains d "name")
    items.map normalizeItem

/-- The state of the *input* of `normalize_dependencies` after the call.
The dicts appended to `items` are the input objects themselves (the single
dict when it has a `name` key, and every list entry with a `name` key), so
the in-place tag-field loop of lines 49-57 mutates them; the name-to-version
mapping branch builds fresh dicts and leaves the input dict untouched. -/
def normalize_dependencies_post (dependencies : RawDeps) : RawDeps :=
  if dependencies.falsy then dependencies
  else
    match dependencies with
    | .pynone => .pynone
    | .pydict d =>
      if dictContains d "name" then .pydict (normalizeItem d) else .pydict d
    | .pylist l =>
      .pylist (l.map (fun d => if dictContains d "name" then normalizeItem d else d))

/-- A dict is "resolved" at tag key `k` when the value at `k` is absent or
already a list, i.e. the tag-field loop leaves the key alone. -/
def resolvedAtB (d : PyDict) (k : String) : Bool :=
  match dictGet? d k with
  | some (.str _) => false
  | _ => true

/-! ## `LibraryManager.max_satisfying_repo_version` (lib.py lines 60-101)

The `semantic_version` library and `datetime.strptime` are external
collaborators; they enter the model as an abstract `SemverLib` record and an
abstract `strptime` function.  Exceptions raised by the embedded code are
reported through `Except`. -/

/-- One registry version record, as used by the selector: the source reads
`v['version']` and (only in the no-requirement branch) `v['date']`. -/
structure VersionRecord where
  version : String
  date : String
deriving DecidableEq, Repr

/-- Result of `datetime.strptime(s, "%Y-%m-%d %H:%M:%S")`: a naive datetime,
compared field-lexicographically (Python datetime comparison restricted to
the fields this format can produce). -/
structure DateTime where
  year : Nat
  month : Nat
  day : Nat
  hour : Nat
  minute : Nat
  second : Nat
deriving DecidableEq, Repr, Inhabited

/-- Python `date1 < date2` on naive datetimes: lexicographic comparison. -/
def DateTime.Lt (a b : DateTime) : Prop :=
  a.year < b.year ∨ (a.year = b.year ∧
    (a.month < b.month ∨ (a.month = b.month ∧
      (a.day < b.day ∨ (a.day = b.day ∧
        (a.hour < b.hour ∨ (a.hour = b.hour ∧
          (a.minute < b.minute ∨ (a.minute = b.minute ∧
            a.second < b.second)))))))))

instance (a b : DateTime) : Decidable (DateTime.Lt a b) := by
  unfold DateTime.Lt; infer_instance

/-- The external `semantic_version` collaborator:
`parseSpec r` models `Spec(r)` (`none` when it raises `ValueError`),
`parseVer s` models `Version(s, partial=True)` (`none` on `ValueError`),
`specMatch rs v` models `v in rs`, and `verLt a b` models `a < b`. -/
structure SemverLib where
  SpecT : Type
  VerT : Type
  parseSpec : String → Option SpecT
  parseVer : String → Option VerT
  specMatch : SpecT → VerT → Bool
  verLt : VerT → VerT → Bool

/-- Decidable equality for `Except`, used to evaluate concrete runs. -/
instance {ε α : Type} [DecidableEq ε] [DecidableEq α] : DecidableEq (Except ε α) := fun a b =>
  match a, b with
  | .error x, .error y =>
    if h : x = y then .isTrue (congrArg Except.error h)
    else .isFalse (fun hh => h (Except.error.inj hh))
  | .ok x, .ok y =>
    if h : x = y then .isTrue (congrArg Except.ok h)
    else .isFalse (fun hh => h (Except.ok.inj hh))
  | .error _, .ok _ => .isFalse (fun hh => Except.noConfusion hh)
  | .ok _, .error _ => .isFalse (fun hh => Except.noConfusion hh)

/-- Exceptions of the embedded code. -/
inductive PyErr where
  | assertionError
  | valueError
  | indexError
  | libNotFound (filters : PyDict)
  | undefinedPackageVersion
  | outOfFuel
deriving DecidableEq, Repr

/-- The string handed to `strptime` by `_cmp_dates` (lines 67-70):
`datestr[:-1].replace("T", " ")`. -/
def pyStrptimeArg (s : String) : String :=
  pyReplaceChar (pySliceToLast s) 'T' ' '

/-- Embedding of `_cmp_dates` (lib.py lines 63-73).  The `assert` raises
`AssertionError` when either string lacks a `"T"`; `strptime` raises
`ValueError` (modelled as `none`) when the transformed string does not match
`"%Y-%m-%d %H:%M:%S"`. -/
def _cmp_dates (strptime : String → Option DateTime) (datestr1 datestr2 : String) :
    Except PyErr Int :=
  if pyCharsContains datestr1 'T' && pyCharsContains datestr2 'T' then
    match strptime (pyStrptimeArg datestr1) with
    | none => .error .valueError
    | some date1 =>
      match strptime (pyStrptimeArg datestr2) with
      | none => .error .valueError
      | some date2 =>
        .ok (if date1 = date2 then 0 else if DateTime.Lt date1 date2 then -1 else 1)
  else .error .assertionError

/-- Python truthiness of the optional `requirements` string: `None` and the
empty string are falsy. -/
def pyTruthy : Option String → Bool
  | none => false
  | some s => s ≠ ""

/-- The `for v in versions` loop of `max_satisfying_repo_version`
(lib.py lines 82-101), with `item` as the accumulator.  Line 92 re-parses
`item['version']` without a `try`, so a parse failure there raises
`ValueError` (it is in fact unreachable, which the proofs establish). -/
def msrvGo (sv : SemverLib) (strptime : String → Option DateTime)
    (reqspec : Option sv.SpecT) (requirements : Option String) :
    List VersionRecord → Option VersionRecord → Except PyErr (Option VersionRecord)
  | [], item => .ok item
  | v :: rest, item =>
    match reqspec with
    | some rs =>
      match sv.parseVer v.version with
      | none => msrvGo sv strptime (some rs) requirements rest item
      | some specver =>
        if sv.specMatch rs specver then
          match item with
          | none => msrvGo sv strptime (some rs) requirements rest (some v)
          | some it =>
            match sv.parseVer it.version with
            | none => .error .valueError
            | some itv =>
              if sv.verLt itv specver then
                msrvGo sv strptime (some rs) requirements rest (some v)
              else
                msrvGo sv strptime (some rs) requirements rest (some it)
        else msrvGo sv strptime (some rs) requirements rest item
    | none =>
      if pyTruthy requirements then
        if requirements = some v.version then .ok (some v)
        else msrvGo sv strptime none requirements rest item
      else
        match item with
        | none => msrvGo sv strptime none requirements rest (some v)
        | some it =>
          match _cmp_dates strptime it.date v.date with
          | .error e => .error e
          | .ok c =>
            if c = -1 then msrvGo sv strptime none requirements rest (some v)
            else msrvGo sv strptime none requirements rest (some it)

/-- Embedding of `LibraryManager.max_satisfying_repo_version` (lib.py lines 60-101).
`reqspec` is set only when `requirements` is truthy and `Spec(requirements)`
parses (lines 77-81). -/
def max_satisfying_repo_version (sv : SemverLib) (strptime : String → Option DateTime)
    (versions : List VersionRecord) (requirements : Option String) :
    Except PyErr (Option VersionRecord) :=
  let reqspec : Option sv.SpecT :=
    if pyTruthy requirements then
      match requirements with
      | some r => sv.parseSpec r
      | none => none
    else none
  msrvGo sv strptime reqspec requirements versions none

/-! ## `LibraryManager.search_for_library` (lib.py lines 181-233)

The registry (`util.get_api_result("/lib/search", ...)`) is modelled as a
function from the query string to a search result; the process-wide setting
`app.get_setting("enable_prompts")` and the `click.prompt` interaction are
explicit parameters.  `click` output calls are pure presentation and are
omitted. -/

/-- One registry search result entry; the embedded code reads `item['id']`
(and formats `item['name']` into an informational message). -/
structure SearchItem where
  id : Int
  name : String
deriving DecidableEq, Repr

/-- The registry search response: `{'total': ..., 'items': [...]}`. -/
structure SearchResult where
  total : Int
  items : List SearchItem
deriving DecidableEq, Repr

/-- Line 197: `key[:-1] if key.endswith("s") else key`. -/
def singularize (key : String) : String :=
  if pyEndsWith key "s" then pySliceToLast key else key

/-- Lines 193-195: a list value is used as is; a string value is split on
commas, tokens that are empty *before* stripping are dropped, the surviving
tokens are stripped (`[v.strip() for v in values.split(",") if v]`). -/
def queryValues : PyVal → List String
  | .listStr l => l
  | .str s => ((pySplitChar s ',').filter (fun t => t ≠ "")).map pyStrip

/-- Lines 189-198: the query terms, in filter iteration order; keys other
than `name`, `authors`, `frameworks`, `platforms` are skipped and each value
becomes a `key:"value"` term with the key singularized. -/
def buildQuery (filters : PyDict) : List String :=
  filters.foldl
    (fun acc p =>
      if p.1 = "name" ∨ p.1 = "authors" ∨ p.1 = "frameworks" ∨ p.1 = "platforms" then
        acc ++ (queryValues p.2).map (fun value => singularize p.1 ++ ":\x22" ++ value ++ "\x22")
      else acc)
    []

/-- The query string sent to the registry (line 202): `" ".join(query)`. -/
def queryString (filters : PyDict) : String :=
  pyJoin " " (buildQuery filters)

/-- Embedding of `LibraryManager.search_for_library` (lib.py lines 181-233).
`api` is the registry search endpoint, `enable_prompts` the process-wide
setting and `pick` the interactive choice (modelled as the string the
prompt returns; `click.Choice` restricts it to the offered ids, and a
non-integer pick would make `int(deplib_id)` raise).  `silent` only
suppresses informational output and does not influence the result. -/
def search_for_library (api : String → SearchResult) (enable_prompts : Bool)
    (pick : List String → String) (filters : PyDict) (silent : Bool) :
    Except PyErr SearchItem :=
  if !dictContains filters "name" then .error .assertionError
  else
    let result := api (queryString filters)
    let lib_info : Except PyErr (Option SearchItem) :=
      if result.total = 1 then
        match result.items.head? with
        | some it => .ok (some it)
        | none => .error .indexError
      else if result.total > 1 then
        if !enable_prompts then
          match result.items.head? with
          | some it => .ok (some it)
          | none => .error .indexError
        else
          match pyToInt? (pick (result.items.map (fun i => pyIntToStr i.id))) with
          | none => .error .valueError
          | some n => .ok (result.items.find? (fun i => i.id = n))
      else .ok none
    match lib_info with
    | .error e => .error e
    | .ok none => .error (.libNotFound filters)
    | .ok (some it) => .ok it

/-! ## `LibraryManager.install` (lib.py lines 139-179) and
`_get_pkg_id_by_name` (lines 109-118)

`BasePkgManager` (package.py, not part of the source tree) supplies
`parse_pkg_name`, `get_installed_dir`, `install` and `load_manifest`; they
are collaborator fields of `InstallEnv`.  The registry search api, the
prompt setting and the prompt pick are carried along so that the embedded
`search_for_library` above is the one the orchestrator calls.  Recursion is
bounded by an explicit fuel; exhausting it yields the artificial
`PyErr.outOfFuel`, which never occurs in the runs the theorems consider. -/

/-- The slice of an installed-package manifest the orchestrator reads:
`manifest['id']` (when the key is present) and `manifest['dependencies']`
(when the key is present). -/
structure Manifest where
  id : Option Int
  dependencies : Option RawDeps
deriving Repr

/-- The external collaborators of `LibraryManager.install`. -/
structure InstallEnv where
  parse_pkg_name : String → Option PyVal → String × Option PyVal × Option String
  get_installed_dir : String → Option PyVal → Option String → Option String
  base_install : String → Option PyVal → Bool → Bool → Except PyErr String
  load_manifest : String → Manifest
  api : String → SearchResult
  enable_prompts : Bool
  pick : List String → String

/-- Embedding of `LibraryManager._get_pkg_id_by_name` (lib.py lines 109-118).
`int(name[3:])` raises `ValueError` on a non-integer suffix; an installed
dir whose manifest has an `id` short-circuits; otherwise the registry is
searched by name (which may raise `LibNotFound`). -/
def _get_pkg_id_by_name (env : InstallEnv) (name : String) (requirements : Option PyVal)
    (silent : Bool) : Except PyErr Int :=
  if pyStartsWith name "id=" then
    match pyToInt? (pyDropStr name 3) with
    | some n => .ok n
    | none => .error .valueError
  else
    match
      (match env.get_installed_dir name requirements none with
       | some dir => (env.load_manifest dir).id
       | none => none) with
    | some i => .ok i
    | none =>
      match search_for_library env.api env.enable_prompts env.pick
          [("name", PyVal.str name)] silent with
      | .error e => .error e
      | .ok item => .ok item.id

/-- Python `str()` of a `PyVal`, used by `"{name}={version}".format(**filters)`. -/
def pyValStr : PyVal → String
  | .str s => s
  | .listStr l => "[" ++ pyJoin ", " (l.map (fun t => "\x27" ++ t ++ "\x27")) ++ "]"

/-- Line 165: `"{name}={version}".format(**filters)`; both keys are present
whenever this is evaluated (`name` by the assert, `version` because the
path-separator test only passes on a present value). -/
def pyFormatNameVersion (filters : PyDict) : String :=
  pyValStr (dictGetD filters "name" (.str "")) ++ "=" ++
    pyValStr (dictGetD filters "version" (.str ""))

/-- The body of the dependency loop (lib.py lines 162-178) for one filter
dict, with the recursive `self.install` passed in as `installRec`.
Line 164 checks `any([s in filters.get("version", "") for s in ("\\", "/")])`
(`in` is substring test on a string value, membership on a list value); the
match branch recurses with the combined `name=version` spec and *default*
arguments, the other branch resolves the filter first and forwards
`silent` / `trigger_event`. -/
def installOneDep
    (installRec : String → Option PyVal → Bool → Bool → Except PyErr (Option String))
    (env : InstallEnv) (filters : PyDict) (silent trigger_event : Bool) :
    Except PyErr Unit :=
  if !dictContains filters "name" then .error .assertionError
  else
    let hasSlash : Bool :=
      match dictGet? filters "version" with
      | some (.str s) => pyCharsContains s '\\' || pyCharsContains s '/'
      | some (.listStr l) => l.contains "\\" || l.contains "/"
      | none => false
    if hasSlash then
      match installRec (pyFormatNameVersion filters) none false true with
      | .error e => .error e
      | .ok _ => .ok ()
    else
      match search_for_library env.api env.enable_prompts env.pick filters silent with
      | .error e => .error e
      | .ok lib_info =>
        let req : Option PyVal :=
          match dictGet? filters "version" with
          | some v => if pyValTruthy v then some v else none
          | none => none
        match installRec (pyIntToStr lib_info.id) req silent trigger_event with
        | .error e => .error e
        | .ok _ => .ok ()

/-- The `for filters in ...` loop of lines 162-178: dependencies are
processed sequentially and the first error aborts the loop (there is no
`try` around the body). -/
def installDepsLoop (step : PyDict → Except PyErr Unit) : List PyDict → Except PyErr Unit
  | [] => .ok ()
  | filters :: rest =>
    match step filters with
    | .error e => .error e
    | .ok _ => installDepsLoop step rest

/-- Embedding of `LibraryManager.install` (lib.py lines 139-179).  Notes kept from the
source: the already-installed check (line 148) is taken *before* the
package-store install call; on the already-installed path line 153 is a bare
`return`, so the call returns `None`, not the installed path; dependencies
are only installed when the target was not installed before. -/
def install (env : InstallEnv) :
    Nat → String → Option PyVal → Bool → Bool → Except PyErr (Option String)
  | 0, _, _, _, _ => .error .outOfFuel
  | Nat.succ fuel, name, requirements, silent, trigger_event =>
    match env.parse_pkg_name name requirements with
    | (pn, preq, purl) =>
      match
        (match purl with
         | none =>
           match _get_pkg_id_by_name env pn preq silent with
           | .ok i => Except.ok ("id=" ++ pyIntToStr i)
           | .error e => Except.error e
         | some _ => Except.ok pn) with
      | .error e => .error e
      | .ok rn =>
        let already_installed := env.get_installed_dir rn preq purl
        match env.base_install (if purl.isSome then name else rn) preq silent trigger_event with
        | .error e => .error e
        | .ok pkg_dir =>
          if already_installed.isSome then .ok none
          else
            match (env.load_manifest pkg_dir).dependencies with
            | none => .ok (some pkg_dir)
            | some deps =>
              match installDepsLoop
                  (fun filters =>
                    installOneDep (fun n r s t => install env fuel n r s t) env filters
                      silent trigger_event)
                  (normalize_dependencies deps) with
              | .error e => .error e
              | .ok _ => .ok (some pkg_dir)

/-! ## Concrete collaborator instantiations

Small executable instances of the external collaborators, used to evaluate
the theorems on concrete inputs. -/

/-- A toy semantic-version collaborator: versions are the decimal naturals,
a range is a lower bound, `">=n"` parses to the bound `n`, anything else
fails to parse.  `verLt` is the strict order on `Nat`, which is irreflexive,
transitive and connected, as the real library order is. -/
@[reducible] def toySemver : SemverLib :=
  ⟨Nat, Nat,
   fun s => if pyStartsWith s ">=" then pyToNat? (pyDropStr s 2) else none,
   fun s => pyToNat? s,
   fun rs v => rs ≤ v,
   fun a b => a < b⟩

/-- A concrete `strptime` for `"%Y-%m-%d %H:%M:%S"`: exactly one space, the
first part split by `-` into three decimal fields, the second by `:` into
three decimal fields. -/
def toyStrptime (s : String) : Option DateTime :=
  match pySplitChar s ' ' with
  | [d, t] =>
    match pySplitChar d '-', pySplitChar t ':' with
    | [y, mo, da], [h, mi, se] =>
      match pyToNat? y, pyToNat? mo, pyToNat? da, pyToNat? h, pyToNat? mi, pyToNat? se with
      | some yn, some mon, some dan, some hn, some mn, some sn =>
        some ⟨yn, mon, dan, hn, mn, sn⟩
      | _, _, _, _, _, _ => none
    | _, _ => none
  | _ => none

/-- The parsed publish date of a record under `toyStrptime`, totalized for
use as the date assignment of concrete selector runs. -/
def toyDateOf (v : VersionRecord) : DateTime :=
  match toyStrptime (pyStrptimeArg v.date) with
  | some d => d
  | none => default

/-- Environment in which the requested library is already installed: every
store lookup finds `/pkgs/foo`, whose manifest records registry id 7. -/
def alreadyInstalledEnv : InstallEnv :=
  ⟨fun name req => (name, req, none),
   fun _ _ _ => some "/pkgs/foo",
   fun _ _ _ _ => .ok "/pkgs/foo",
   fun _ => ⟨some 7, none⟩,
   fun _ => ⟨1, [⟨7, "foo"⟩]⟩,
   false,
   fun _ => ""⟩

/-- Environment in which the target installs freshly but its one declared
dependency `missing` matches nothing in the registry. -/
def missingDepEnv : InstallEnv :=
  ⟨fun name req => (name, req, none),
   fun _ _ _ => none,
   fun _ _ _ _ => .ok "/pkgs/top",
   fun _ => ⟨some 1, some (.pylist [[("name", PyVal.str "missing")]])⟩,
   fun _ => ⟨0, []⟩,
   false,
   fun _ => ""⟩

/-- The dicts contained in a raw declaration (the objects the source may
mutate in place). -/
def rawDepsDicts : RawDeps → List PyDict
  | .pynone => []
  | .pydict d => [d]
  | .pylist l => l

/-- A candidate qualifies for a parsed range `rs` when its version string
parses as a (possibly partial) semantic version that satisfies `rs`. -/
def qualifies (sv : SemverLib) (rs : sv.SpecT) (v : VersionRecord) : Prop :=
  ∃ pv, sv.parseVer v.version = some pv ∧ sv.specMatch rs pv = true

/-! # Theorems

First the helper lemmas about the dict operations and the tag-field loop,
then one theorem per claim (with witnesses and counterexamples). -/

theorem dictGet?_del_self (d : PyDict) (k : String) : dictGet? (dictDel d k) k = none := by
  induction d with
  | nil => rfl
  | cons p rest ih =>
    by_cases h : p.1 = k
    · simpa [dictDel, h] using ih
    · simpa [dictDel, dictGet?, h] using ih

theorem dictGet?_del_ne (d : PyDict) (k k' : String) (h : k' ≠ k) :
    dictGet? (dictDel d k) k' = dictGet? d k' := by
  induction d with
  | nil => rfl
  | cons p rest ih =>
    have hkk : ¬(k = k') := fun he => h he.symm
    by_cases hp : p.1 = k
    · simpa [dictDel, dictGet?, hp, hkk] using ih
    · by_cases hp' : p.1 = k'
      · simp [dictDel, dictGet?, hp, hp', h]
      · simpa [dictDel, dictGet?, hp, hp'] using ih

theorem dictGet?_set_self (d : PyDict) (k : String) (v w : PyVal)
    (h : dictGet? d k = some w) : dictGet? (dictSet d k v) k = some v := by
  induction d with
  | nil => simp [dictGet?] at h
  | cons p rest ih =>
    by_cases hp : p.1 = k
    · simp [dictSet, dictGet?, hp]
    · simp only [dictGet?, if_neg hp] at h
      simpa [dictSet, dictGet?, hp] using ih h

theorem dictGet?_set_ne (d : PyDict) (k k' : String) (v : PyVal) (h : k' ≠ k) :
    dictGet? (dictSet d k v) k' = dictGet? d k' := by
  induction d with
  | nil => rfl
  | cons p rest ih =>
    by_cases hp : p.1 = k
    · have hk : ¬(k = k') := fun he => h he.symm
      simpa [dictSet, dictGet?, hp, hk] using ih
    · by_cases hp' : p.1 = k'
      · simp [dictSet, dictGet?, hp, hp', h]
      · simpa [dictSet, dictGet?, hp, hp'] using ih

theorem dictContains_del_ne (d : PyDict) (k k' : String) (h : k' ≠ k) :
    dictContains (dictDel d k) k' = dictContains d k' := by
  induction d with
  | nil => rfl
  | cons p rest ih =>
    have hkk : ¬(k = k') := fun he => h he.symm
    by_cases hp : p.1 = k
    · simpa [dictDel, dictContains, hp, hkk] using ih
    · by_cases hp' : p.1 = k'
      · simp [dictDel, dictContains, hp, hp', h]
      · simpa [dictDel, dictContains, hp, hp'] using ih

theorem dictContains_set (d : PyDict) (k k' : String) (v : PyVal) :
    dictContains (dictSet d k v) k' = dictContains d k' := by
  induction d with
  | nil => rfl
  | cons p rest ih =>
    by_cases hp : p.1 = k
    · subst hp
      simp only [dictSet, if_pos rfl, dictContains]
      rw [ih]
    · simp only [dictSet, if_neg hp, dictContains]
      rw [ih]

theorem dictGet?_processTagKey_ne (d : PyDict) (k k' : String) (h : k' ≠ k) :
    dictGet? (processTagKey d k) k' = dictGet? d k' := by
  unfold processTagKey
  cases hg : dictGet? d k with
  | none => rfl
  | some v =>
    cases v with
    | listStr l => rfl
    | str s =>
      by_cases hs : s = "*"
      · simp [hs, dictGet?_del_ne d k k' h]
      · simp [hs, dictGet?_set_ne d k k' _ h]

theorem dictContains_processTagKey_ne (d : PyDict) (k k' : String) (h : k' ≠ k) :
    dictContains (processTagKey d k) k' = dictContains d k' := by
  unfold processTagKey
  cases hg : dictGet? d k with
  | none => rfl
  | some v =>
    cases v with
    | listStr l => rfl
    | str s =>
      by_cases hs : s = "*"
      · simp [hs, dictContains_del_ne d k k' h]
      · simp [hs, dictContains_set]

theorem processTagKey_resolved (d : PyDict) (k : String) :
    resolvedAtB (processTagKey d k) k = true := by
  unfold processTagKey resolvedAtB
  cases hg : dictGet? d k with
  | none => simp [hg]
  | some v =>
    cases v with
    | listStr l => simp [hg]
    | str s =>
      by_cases hs : s = "*"
      · simp [hs, dictGet?_del_self]
      · simp [hs, dictGet?_set_self d k _ _ hg]

theorem processTagKey_of_resolved (d : PyDict) (k : String)
    (h : resolvedAtB d k = true) : processTagKey d k = d := by
  unfold resolvedAtB at h
  unfold processTagKey
  cases hg : dictGet? d k with
  | none => rfl
  | some v =>
    cases v with
    | listStr l => rfl
    | str s => rw [hg] at h; simp at h

theorem resolvedAtB_processTagKey_ne (d : PyDict) (k k' : String) (h : k' ≠ k) :
    resolvedAtB (processTagKey d k) k' = resolvedAtB d k' := by
  unfold resolvedAtB
  rw [dictGet?_processTagKey_ne d k k' h]

theorem normalizeItem_of_resolved (d : PyDict)
    (hf : resolvedAtB d "frameworks" = true) (hp : resolvedAtB d "platforms" = true) :
    normalizeItem d = d := by
  unfold normalizeItem
  rw [processTagKey_of_resolved d _ hf, processTagKey_of_resolved d _ hp]

theorem normalizeItem_idem (d : PyDict) : normalizeItem (normalizeItem d) = normalizeItem d := by
  have h1 : resolvedAtB (normalizeItem d) "frameworks" = true := by
    unfold normalizeItem
    rw [resolvedAtB_processTagKey_ne _ _ _ (by decide)]
    exact processTagKey_resolved d "frameworks"
  have h2 : resolvedAtB (normalizeItem d) "platforms" = true := by
    unfold normalizeItem
    exact processTagKey_resolved _ "platforms"
  exact normalizeItem_of_resolved _ h1 h2

theorem dictContains_normalizeItem_name (d : PyDict) :
    dictContains (normalizeItem d) "name" = dictContains d "name" := by
  unfold normalizeItem
  rw [dictContains_processTagKey_ne _ _ _ (by decide),
    dictContains_processTagKey_ne _ _ _ (by decide)]

theorem normalize_dependencies_names (x : RawDeps) :
    ∀ d ∈ normalize_dependencies x, dictContains d "name" = true := by
  intro d hd
  unfold normalize_dependencies at hd
  split at hd
  · simp at hd
  · simp only [List.mem_map] at hd
    obtain ⟨z, hz, rfl⟩ := hd
    rw [dictContains_normalizeItem_name]
    cases x with
    | pynone => simp at hz
    | pydict dd =>
      by_cases hn : dictContains dd "name"
      · simp only [hn, if_true, List.mem_singleton] at hz
        subst hz; exact hn
      · simp only [hn, Bool.false_eq_true, if_false, List.mem_map] at hz
        obtain ⟨p, hp, rfl⟩ := hz
        simp [dictContains]
    | pylist l =>
      simp only [List.mem_filter] at hz
      exact hz.2

theorem normalize_dependencies_fixed (x : RawDeps) :
    ∀ d ∈ normalize_dependencies x, normalizeItem d = d := by
  intro d hd
  unfold normalize_dependencies at hd
  split at hd
  · simp at hd
  · simp only [List.mem_map] at hd
    obtain ⟨z, _, rfl⟩ := hd
    exact normalizeItem_idem z

theorem normalize_dependencies_pylist (ys : List PyDict) (hy : ys ≠ []) :
    normalize_dependencies (.pylist ys) =
      (ys.filter (fun d => dictContains d "name")).map normalizeItem := by
  unfold normalize_dependencies
  simp [RawDeps.falsy, hy]

/-- Claim C4: `normalize_dependencies` is idempotent — normalizing the list
an earlier call produced (any valid raw declaration shape `x` normalized
once, re-wrapped as a list declaration) returns it unchanged. -/
theorem C4_normalize_dependencies_idempotent (x : RawDeps) :
    normalize_dependencies (.pylist (normalize_dependencies x)) = normalize_dependencies x := by
  by_cases hy : normalize_dependencies x = []
  · rw [hy]; rfl
  · rw [normalize_dependencies_pylist _ hy,
      List.filter_eq_self.mpr (normalize_dependencies_names x)]
    calc (normalize_dependencies x).map normalizeItem
        = (normalize_dependencies x).map id :=
          List.map_congr_left (fun a ha => normalize_dependencies_fixed x a ha)
      _ = normalize_dependencies x := List.map_id _

/-- Claim C5 counterexample: a single dependency dict with a wildcard
`frameworks` tag is mutated by the call — the wildcard key is deleted from
the input object, so the input is not left unchanged. -/
theorem C5_counterexample :
    normalize_dependencies_post (.pydict [("name", PyVal.str "a"), ("frameworks", PyVal.str "*")]) ≠
      .pydict [("name", PyVal.str "a"), ("frameworks", PyVal.str "*")] := by decide

/-- Claim C5 as amended: `normalize_dependencies` performs no I/O but is not
pure on its input — it mutates name-keyed dependency dicts in place (deleting
wildcard tag values, replacing comma-separated tag strings by split lists);
the input is left unchanged in the case that every contained dict's
`frameworks`/`platforms` values are absent or already lists. -/
theorem C5_normalize_dependencies_mutation (x : RawDeps)
    (h : ∀ d ∈ rawDepsDicts x,
      resolvedAtB d "frameworks" = true ∧ resolvedAtB d "platforms" = true) :
    normalize_dependencies_post x = x := by
  cases x with
  | pynone => rfl
  | pydict d =>
    obtain ⟨hf, hp⟩ := h d (by simp [rawDepsDicts])
    simp only [normalize_dependencies_post]
    rw [normalizeItem_of_resolved d hf hp]
    split
    · rfl
    · split <;> rfl
  | pylist l =>
    have hmap : ∀ d ∈ l, (if dictContains d "name" then normalizeItem d else d) = d := by
      intro d hd
      obtain ⟨hf, hp⟩ := h d (by simpa [rawDepsDicts] using hd)
      rw [normalizeItem_of_resolved d hf hp]
      split <;> rfl
    simp only [normalize_dependencies_post]
    rw [show l.map (fun d => if dictContains d "name" then normalizeItem d else d) = l.map id
      from List.map_congr_left hmap]
    rw [List.map_id]
    split <;> rfl

/-- Claim C5 witness: on an already-normalized list declaration the call
leaves the input unchanged. -/
theorem C5_witness :
    normalize_dependencies_post
        (.pylist [[("name", PyVal.str "b"), ("frameworks", PyVal.listStr ["arduino"])]]) =
      .pylist [[("name", PyVal.str "b"), ("frameworks", PyVal.listStr ["arduino"])]] :=
  C5_normalize_dependencies_mutation _ (by decide)

theorem msrvGo_exact (sv : SemverLib) (strptime : String → Option DateTime) (r : String)
    (hr : r ≠ "") (versions : List VersionRecord) :
    msrvGo sv strptime none (some r) versions none =
      .ok (versions.find? (fun v => v.version = r)) := by
  induction versions with
  | nil => rfl
  | cons v rest ih =>
    have ht : pyTruthy (some r) = true := by simp [pyTruthy, hr]
    simp only [msrvGo, ht, if_true]
    by_cases he : r = v.version
    · simp [List.find?, he]
    · have hc : ¬(some r = some v.version) := fun h2 => he (Option.some.inj h2)
      have hv : decide (v.version = r) = false := decide_eq_false (fun h2 => he h2.symm)
      rw [if_neg hc, ih]
      simp [List.find?, hv]

/-- Claim C6: with a truthy requirement that fails to parse as a semver
range, the selector falls back to exact string equality and returns the
first candidate (in input order) whose version string equals the
requirement verbatim, or `None` when no version string equals it; it never
raises on this path. -/
theorem C6_exact_match_fallback (sv : SemverLib) (strptime : String → Option DateTime)
    (versions : List VersionRecord) (r : String)
    (hr : r ≠ "") (hp : sv.parseSpec r = none) :
    max_satisfying_repo_version sv strptime versions (some r) =
      .ok (versions.find? (fun v => v.version = r)) := by
  unfold max_satisfying_repo_version
  have ht : pyTruthy (some r) = true := by simp [pyTruthy, hr]
  simp only [ht, if_true, hp]
  exact msrvGo_exact sv strptime r hr versions

/-- Claim C6 witness: requirement `"weird"` does not parse as a range; the
first of the two verbatim-equal candidates is returned, short-circuiting. -/
theorem C6_witness :
    max_satisfying_repo_version toySemver toyStrptime
        [⟨"1.0", "a"⟩, ⟨"weird", "b"⟩, ⟨"weird", "c"⟩] (some "weird") =
      .ok (some ⟨"weird", "b"⟩) := by
  rw [C6_exact_match_fallback toySemver toyStrptime _ "weird" (by decide) rfl]
  rfl

theorem dateTimeLt_irrefl (a : DateTime) : ¬ DateTime.Lt a a := by
  unfold DateTime.Lt
  omega

theorem dateTimeLt_trans {a b c : DateTime} (h1 : DateTime.Lt a b) (h2 : DateTime.Lt b c) :
    DateTime.Lt a c := by
  unfold DateTime.Lt at *
  omega

theorem dateTimeLt_connex {a b : DateTime} (h1 : ¬ DateTime.Lt a b) (h2 : ¬ DateTime.Lt b a) :
    a = b := by
  cases a with
  | mk a1 a2 a3 a4 a5 a6 =>
    cases b with
    | mk b1 b2 b3 b4 b5 b6 =>
      simp only [DateTime.Lt] at h1 h2
      simp only [DateTime.mk.injEq]
      omega

theorem cmp_dates_parsed (strptime : String → Option DateTime) (f : VersionRecord → DateTime)
    (a b : VersionRecord)
    (hTa : pyCharsContains a.date 'T' = true) (hTb : pyCharsContains b.date 'T' = true)
    (hfa : strptime (pyStrptimeArg a.date) = some (f a))
    (hfb : strptime (pyStrptimeArg b.date) = some (f b)) :
    _cmp_dates strptime a.date b.date =
      .ok (if f a = f b then 0 else if DateTime.Lt (f a) (f b) then -1 else 1) := by
  unfold _cmp_dates
  rw [hTa, hTb]
  simp only [Bool.and_self, if_true, hfa, hfb]

theorem msrvGo_dates (sv : SemverLib) (strptime : String → Option DateTime)
    (f : VersionRecord → DateTime) (rest : List VersionRecord) :
    ∀ it : VersionRecord,
      pyCharsContains it.date 'T' = true →
      strptime (pyStrptimeArg it.date) = some (f it) →
      (∀ v ∈ rest, pyCharsContains v.date 'T' = true) →
      (∀ v ∈ rest, strptime (pyStrptimeArg v.date) = some (f v)) →
      ∃ pre w post, it :: rest = pre ++ w :: post ∧
        msrvGo sv strptime none none rest (some it) = .ok (some w) ∧
        (∀ v ∈ it :: rest, ¬ DateTime.Lt (f w) (f v)) ∧
        (∀ v ∈ pre, DateTime.Lt (f v) (f w)) := by
  induction rest with
  | nil =>
    intro it _ _ _ _
    refine ⟨[], it, [], rfl, rfl, ?_, by simp⟩
    intro v hv
    rw [List.mem_singleton] at hv
    rw [hv]
    exact dateTimeLt_irrefl (f it)
  | cons v rs ih =>
    intro it hTit hfit hTr hfr
    have hTv : pyCharsContains v.date 'T' = true := hTr v (List.mem_cons_self v rs)
    have hfv : strptime (pyStrptimeArg v.date) = some (f v) := hfr v (List.mem_cons_self v rs)
    have hTr' : ∀ x ∈ rs, pyCharsContains x.date 'T' = true :=
      fun x hx => hTr x (List.mem_cons_of_mem v hx)
    have hfr' : ∀ x ∈ rs, strptime (pyStrptimeArg x.date) = some (f x) :=
      fun x hx => hfr x (List.mem_cons_of_mem v hx)
    have hcmp := cmp_dates_parsed strptime f it v hTit hTv hfit hfv
    have hstep : msrvGo sv strptime none none (v :: rs) (some it) =
        (if (if f it = f v then (0 : Int) else if DateTime.Lt (f it) (f v) then -1 else 1) = -1
         then msrvGo sv strptime none none rs (some v)
         else msrvGo sv strptime none none rs (some it)) := by
      simp only [msrvGo, pyTruthy, Bool.false_eq_true, if_false, hcmp]
    by_cases hlt : DateTime.Lt (f it) (f v)
    · have hne : f it ≠ f v := by
        intro he
        rw [he] at hlt
        exact dateTimeLt_irrefl (f v) hlt
      rw [if_neg hne, if_pos hlt, if_pos rfl] at hstep
      obtain ⟨pre, w, post, hdec, hrun, hmax, hpre⟩ := ih v hTv hfv hTr' hfr'
      refine ⟨it :: pre, w, post, ?_, hstep.trans hrun, ?_, ?_⟩
      · rw [List.cons_append, ← hdec]
      · intro x hx
        rcases List.mem_cons.mp hx with hx1 | hx2
        · rw [hx1]
          intro hcon
          exact hmax v (List.mem_cons_self v rs) (dateTimeLt_trans hcon hlt)
        · exact hmax x hx2
      · intro x hx
        rcases List.mem_cons.mp hx with hx1 | hx2
        · rw [hx1]
          cases pre with
          | nil =>
            rw [List.nil_append] at hdec
            obtain ⟨hw, _⟩ := List.cons_eq_cons.mp hdec
            rw [← hw]
            exact hlt
          | cons p0 ps =>
            rw [List.cons_append] at hdec
            obtain ⟨hp0, _⟩ := List.cons_eq_cons.mp hdec
            have hvw : DateTime.Lt (f v) (f w) := by
              rw [hp0]
              exact hpre p0 (List.mem_cons_self p0 ps)
            exact dateTimeLt_trans hlt hvw
        · exact hpre x hx2
    · have hc : ¬((if f it = f v then (0 : Int) else if DateTime.Lt (f it) (f v) then -1 else 1)
          = -1) := by
        by_cases he : f it = f v
        · rw [if_pos he]; omega
        · rw [if_neg he, if_neg hlt]; omega
      rw [if_neg hc] at hstep
      obtain ⟨pre, w, post, hdec, hrun, hmax, hpre⟩ := ih it hTit hfit hTr' hfr'
      cases pre with
      | nil =>
        rw [List.nil_append] at hdec
        obtain ⟨hw, _⟩ := List.cons_eq_cons.mp hdec
        refine ⟨[], w, v :: rs, by rw [List.nil_append, ← hw], hstep.trans hrun, ?_, by simp⟩
        intro x hx
        rcases List.mem_cons.mp hx with hx1 | hx2
        · rw [hx1, ← hw]
          exact dateTimeLt_irrefl (f it)
        · rcases List.mem_cons.mp hx2 with hx3 | hx4
          · rw [hx3, ← hw]
            exact hlt
          · exact hmax x (List.mem_cons_of_mem it hx4)
      | cons p0 ps =>
        rw [List.cons_append] at hdec
        obtain ⟨hp0, hrs⟩ := List.cons_eq_cons.mp hdec
        have hitw : DateTime.Lt (f it) (f w) := by
          rw [hp0]
          exact hpre p0 (List.mem_cons_self p0 ps)
        refine ⟨it :: v :: ps, w, post,
          by rw [List.cons_append, List.cons_append, ← hrs], hstep.trans hrun, ?_, ?_⟩
        · intro x hx
          rcases List.mem_cons.mp hx with hx1 | hx2
          · rw [hx1]
            exact hmax it (List.mem_cons_self it rs)
          · rcases List.mem_cons.mp hx2 with hx3 | hx4
            · rw [hx3]
              intro hcon
              exact hlt (dateTimeLt_trans hitw hcon)
            · exact hmax x (List.mem_cons_of_mem it hx4)
        · intro x hx
          rcases List.mem_cons.mp hx with hx1 | hx2
          · rw [hx1]
            exact hitw
          · rcases List.mem_cons.mp hx2 with hx3 | hx4
            · rw [hx3]
              by_cases hvlt : DateTime.Lt (f v) (f it)
              · exact dateTimeLt_trans hvlt hitw
              · rw [← dateTimeLt_connex hlt hvlt]
                exact hitw
            · exact hpre x (List.mem_cons_of_mem p0 hx4)

theorem max_satisfying_none_cons (sv : SemverLib) (strptime : String → Option DateTime)
    (v0 : VersionRecord) (rest : List VersionRecord) :
    max_satisfying_repo_version sv strptime (v0 :: rest) none =
      msrvGo sv strptime none none rest (some v0) := by
  simp only [max_satisfying_repo_version, msrvGo, pyTruthy, Bool.false_eq_true, if_false]

/-- Claim C7: with an absent requirement and a non-empty candidate list
whose date strings all contain `"T"` and parse (after the `[:-1]` strip and
`T`-to-space normalization) under the external `strptime` as the datetimes
given by `f`, the selector returns the candidate with the latest publish
timestamp, and on ties the first-seen candidate in input order is kept: the
returned record `w` splits the list as `pre ++ w :: post` with nothing
strictly later anywhere and everything before `w` strictly earlier. -/
theorem C7_latest_date_selection (sv : SemverLib) (strptime : String → Option DateTime)
    (versions : List VersionRecord) (f : VersionRecord → DateTime)
    (hne : versions ≠ [])
    (hT : ∀ v ∈ versions, pyCharsContains v.date 'T' = true)
    (hf : ∀ v ∈ versions, strptime (pyStrptimeArg v.date) = some (f v)) :
    ∃ pre w post, versions = pre ++ w :: post ∧
      max_satisfying_repo_version sv strptime versions none = .ok (some w) ∧
      (∀ v ∈ versions, ¬ DateTime.Lt (f w) (f v)) ∧
      (∀ v ∈ pre, DateTime.Lt (f v) (f w)) := by
  cases versions with
  | nil => exact absurd rfl hne
  | cons v0 rest =>
    obtain ⟨pre, w, post, hdec, hrun, hmax, hpre⟩ :=
      msrvGo_dates sv strptime f rest v0 (hT v0 (List.mem_cons_self v0 rest))
        (hf v0 (List.mem_cons_self v0 rest))
        (fun x hx => hT x (List.mem_cons_of_mem v0 hx))
        (fun x hx => hf x (List.mem_cons_of_mem v0 hx))
    exact ⟨pre, w, post, hdec, (max_satisfying_none_cons sv strptime v0 rest).trans hrun,
      hmax, hpre⟩

/-- Claim C7 witness: of two well-formed records the 2021 one is returned;
it is the second element, and the 2020 record before it is strictly
earlier. -/
theorem C7_witness :
    ∃ pre w post,
      ([⟨"1.0.0", "2020-01-01T00:00:00Z"⟩, ⟨"1.1.0", "2021-01-01T00:00:00Z"⟩] :
          List VersionRecord) = pre ++ w :: post ∧
      max_satisfying_repo_version toySemver toyStrptime
          [⟨"1.0.0", "2020-01-01T00:00:00Z"⟩, ⟨"1.1.0", "2021-01-01T00:00:00Z"⟩] none =
        .ok (some w) ∧
      (∀ v ∈ ([⟨"1.0.0", "2020-01-01T00:00:00Z"⟩, ⟨"1.1.0", "2021-01-01T00:00:00Z"⟩] :
          List VersionRecord), ¬ DateTime.Lt (toyDateOf w) (toyDateOf v)) ∧
      (∀ v ∈ pre, DateTime.Lt (toyDateOf v) (toyDateOf w)) :=
  C7_latest_date_selection toySemver toyStrptime
    [⟨"1.0.0", "2020-01-01T00:00:00Z"⟩, ⟨"1.1.0", "2021-01-01T00:00:00Z"⟩]
    toyDateOf (by decide) (by decide) (by decide)

theorem msrvGo_dates_total (sv : SemverLib) (strptime : String → Option DateTime)
    (rest : List VersionRecord) :
    ∀ it : VersionRecord,
      pyCharsContains it.date 'T' = true →
      (strptime (pyStrptimeArg it.date)).isSome = true →
      (∀ v ∈ rest, pyCharsContains v.date 'T' = true ∧
        (strptime (pyStrptimeArg v.date)).isSome = true) →
      ∃ w, msrvGo sv strptime none none rest (some it) = .ok (some w) := by
  induction rest with
  | nil =>
    intro it _ _ _
    exact ⟨it, rfl⟩
  | cons v rs ih =>
    intro it hTit hsit hr
    obtain ⟨hTv, hsv⟩ := hr v (List.mem_cons_self v rs)
    obtain ⟨dit, hdit⟩ := Option.isSome_iff_exists.mp hsit
    obtain ⟨dv, hdv⟩ := Option.isSome_iff_exists.mp hsv
    have hcmp : _cmp_dates strptime it.date v.date =
        .ok (if dit = dv then 0 else if DateTime.Lt dit dv then -1 else 1) := by
      unfold _cmp_dates
      rw [hTit, hTv]
      simp only [Bool.and_self, if_true, hdit, hdv]
    have hr' := fun x hx => hr x (List.mem_cons_of_mem v hx)
    have hstep : msrvGo sv strptime none none (v :: rs) (some it) =
        (if (if dit = dv then (0 : Int) else if DateTime.Lt dit dv then -1 else 1) = -1
         then msrvGo sv strptime none none rs (some v)
         else msrvGo sv strptime none none rs (some it)) := by
      simp only [msrvGo, pyTruthy, Bool.false_eq_true, if_false, hcmp]
    by_cases hc : (if dit = dv then (0 : Int) else if DateTime.Lt dit dv then -1 else 1) = -1
    · rw [if_pos hc] at hstep
      obtain ⟨w, hw⟩ := ih v hTv hsv hr'
      exact ⟨w, hstep.trans hw⟩
    · rw [if_neg hc] at hstep
      obtain ⟨w, hw⟩ := ih it hTit hsit hr'
      exact ⟨w, hstep.trans hw⟩

/-- Claim C10 counterexample: a single candidate whose date string violates
the format in every respect (no `"T"`, no zone marker, not the expected
pattern) does *not* make the call raise — `_cmp_dates` only runs from the
second candidate on, so the call returns the violating record. -/
theorem C10_counterexample :
    max_satisfying_repo_version toySemver toyStrptime [⟨"1.0.0", "bad"⟩] none =
      .ok (some ⟨"1.0.0", "bad"⟩) := by decide

/-- Claim C10 as amended: in the absent-requirement branch the selector
never raises provided every candidate's date string contains `"T"` and its
final-character-stripped, `T`-normalized form parses under the external
`strptime`; a violating date string makes the call raise only when a
comparison is actually reached — with at least two candidates (second
conjunct: two `"T"`-free dates raise the assertion), while with zero or one
candidates no date is ever parsed and the call returns without raising. -/
theorem C10_date_format_safety :
    (∀ (sv : SemverLib) (strptime : String → Option DateTime)
        (versions : List VersionRecord),
      (∀ v ∈ versions, pyCharsContains v.date 'T' = true ∧
        (strptime (pyStrptimeArg v.date)).isSome = true) →
      ∃ res, max_satisfying_repo_version sv strptime versions none = .ok res) ∧
    max_satisfying_repo_version toySemver toyStrptime
        [⟨"1.0.0", "bad"⟩, ⟨"2.0.0", "worse"⟩] none = .error .assertionError := by
  constructor
  · intro sv strptime versions h
    cases versions with
    | nil => exact ⟨none, rfl⟩
    | cons v0 rest =>
      obtain ⟨hT0, hs0⟩ := h v0 (List.mem_cons_self v0 rest)
      obtain ⟨w, hw⟩ := msrvGo_dates_total sv strptime rest v0 hT0 hs0
        (fun x hx => h x (List.mem_cons_of_mem v0 hx))
      exact ⟨some w, (max_satisfying_none_cons sv strptime v0 rest).trans hw⟩
  · decide

theorem msrvGo_range_loop (sv : SemverLib) (strptime : String → Option DateTime)
    (rs : sv.SpecT) (r : String)
    (hirr : ∀ a, sv.verLt a a = false)
    (htr : ∀ a b c, sv.verLt a b = true → sv.verLt b c = true → sv.verLt a c = true)
    (rest : List VersionRecord) :
    ∀ item : Option VersionRecord,
      (∀ it, item = some it → qualifies sv rs it) →
      ∃ res, msrvGo sv strptime (some rs) (some r) rest item = .ok res ∧
        (res = none → item = none ∧ ∀ v ∈ rest, ¬ qualifies sv rs v) ∧
        (∀ w, res = some w → qualifies sv rs w ∧ (item = some w ∨ w ∈ rest) ∧
          (∀ pw, sv.parseVer w.version = some pw →
            (∀ v ∈ rest, ∀ pv, sv.parseVer v.version = some pv →
              sv.specMatch rs pv = true → sv.verLt pw pv = false) ∧
            (∀ it pit, item = some it → sv.parseVer it.version = some pit →
              pit = pw ∨ sv.verLt pit pw = true))) := by
  -- The incoming item is equal to or strictly below the final result, so
  -- anything not above the incoming item is not above the result either;
  -- only irreflexivity and transitivity of the version order are needed.
  have key : ∀ a b : sv.VerT, (b = a ∨ sv.verLt b a = true) → sv.verLt a b = false := by
    intro a b hb
    cases hcon : sv.verLt a b with
    | false => rfl
    | true =>
      rcases hb with he | hlt2
      · rw [he] at hcon
        rw [hirr a] at hcon
        exact Bool.noConfusion hcon
      · have h2 : sv.verLt b b = true := htr b a b hlt2 hcon
        rw [hirr b] at h2
        exact Bool.noConfusion h2
  have key2 : ∀ pit sver pw : sv.VerT, sv.verLt pit sver = false →
      (pit = pw ∨ sv.verLt pit pw = true) → sv.verLt pw sver = false := by
    intro pit sver pw hns hch
    cases hcon : sv.verLt pw sver with
    | false => rfl
    | true =>
      rcases hch with he | hlt2
      · rw [he] at hns
        rw [hcon] at hns
        exact Bool.noConfusion hns
      · have h2 : sv.verLt pit sver = true := htr pit pw sver hlt2 hcon
        rw [h2] at hns
        exact Bool.noConfusion hns
  induction rest with
  | nil =>
    intro item hq
    refine ⟨item, rfl, fun hres => ⟨hres, by simp⟩, ?_⟩
    intro w hw
    refine ⟨hq w hw, Or.inl hw, ?_⟩
    intro pw hpw
    refine ⟨by simp, ?_⟩
    intro it pit hit hpit
    have hiw : it = w := by
      rw [hit] at hw
      exact (Option.some.inj hw)
    rw [hiw] at hpit
    rw [hpit] at hpw
    exact Or.inl (Option.some.inj hpw)
  | cons v rest' ih =>
    intro item hq
    cases hpv : sv.parseVer v.version with
    | none =>
      have hstep : msrvGo sv strptime (some rs) (some r) (v :: rest') item =
          msrvGo sv strptime (some rs) (some r) rest' item := by
        simp only [msrvGo, hpv]
      obtain ⟨res, hrun, hnone, hsome⟩ := ih item hq
      refine ⟨res, hstep.trans hrun, ?_, ?_⟩
      · intro hres
        obtain ⟨h1, h2⟩ := hnone hres
        refine ⟨h1, ?_⟩
        intro x hx
        rcases List.mem_cons.mp hx with hx1 | hx2
        · rw [hx1]
          rintro ⟨pv, hpv2, _⟩
          rw [hpv] at hpv2
          exact Option.noConfusion hpv2
        · exact h2 x hx2
      · intro w hw
        obtain ⟨hqw, hpos, hmax⟩ := hsome w hw
        refine ⟨hqw, ?_, ?_⟩
        · rcases hpos with h | h
          · exact Or.inl h
          · exact Or.inr (List.mem_cons_of_mem v h)
        · intro pw hpw
          obtain ⟨hrest, hitem⟩ := hmax pw hpw
          refine ⟨?_, hitem⟩
          intro x hx pv hpv2 hmv
          rcases List.mem_cons.mp hx with hx1 | hx2
          · rw [hx1, hpv] at hpv2
            exact Option.noConfusion hpv2
          · exact hrest x hx2 pv hpv2 hmv
    | some sver =>
      cases hm : sv.specMatch rs sver with
      | false =>
        have hstep : msrvGo sv strptime (some rs) (some r) (v :: rest') item =
            msrvGo sv strptime (some rs) (some r) rest' item := by
          simp only [msrvGo, hpv, hm, Bool.false_eq_true, if_false]
        obtain ⟨res, hrun, hnone, hsome⟩ := ih item hq
        have hnq : ¬ qualifies sv rs v := by
          rintro ⟨pv, hpv2, hmv⟩
          rw [hpv] at hpv2
          rw [Option.some.inj hpv2] at hm
          rw [hmv] at hm
          exact Bool.noConfusion hm
        refine ⟨res, hstep.trans hrun, ?_, ?_⟩
        · intro hres
          obtain ⟨h1, h2⟩ := hnone hres
          refine ⟨h1, ?_⟩
          intro x hx
          rcases List.mem_cons.mp hx with hx1 | hx2
          · rw [hx1]; exact hnq
          · exact h2 x hx2
        · intro w hw
          obtain ⟨hqw, hpos, hmax⟩ := hsome w hw
          refine ⟨hqw, ?_, ?_⟩
          · rcases hpos with h | h
            · exact Or.inl h
            · exact Or.inr (List.mem_cons_of_mem v h)
          · intro pw hpw
            obtain ⟨hrest, hitem⟩ := hmax pw hpw
            refine ⟨?_, hitem⟩
            intro x hx pv hpv2 hmv
            rcases List.mem_cons.mp hx with hx1 | hx2
            · rw [hx1] at hpv2
              rw [hpv] at hpv2
              rw [← Option.some.inj hpv2] at hmv
              rw [hmv] at hm
              exact Bool.noConfusion hm
            · exact hrest x hx2 pv hpv2 hmv
      | true =>
        cases item with
        | none =>
          have hstep : msrvGo sv strptime (some rs) (some r) (v :: rest') none =
              msrvGo sv strptime (some rs) (some r) rest' (some v) := by
            simp only [msrvGo, hpv, hm, if_true]
          have hqv : qualifies sv rs v := ⟨sver, hpv, hm⟩
          obtain ⟨res, hrun, hnone, hsome⟩ := ih (some v)
            (fun it hit => by rw [← Option.some.inj hit]; exact hqv)
          refine ⟨res, hstep.trans hrun, ?_, ?_⟩
          · intro hres
            exact absurd (hnone hres).1 (by simp)
          · intro w hw
            obtain ⟨hqw, hpos, hmax⟩ := hsome w hw
            refine ⟨hqw, ?_, ?_⟩
            · rcases hpos with h | h
              · exact Or.inr (by rw [← Option.some.inj h]; exact List.mem_cons_self v rest')
              · exact Or.inr (List.mem_cons_of_mem v h)
            · intro pw hpw
              obtain ⟨hrest, hitem⟩ := hmax pw hpw
              refine ⟨?_, by simp⟩
              intro x hx pv hpv2 hmv
              rcases List.mem_cons.mp hx with hx1 | hx2
              · rw [hx1] at hpv2
                rw [hpv] at hpv2
                rw [← Option.some.inj hpv2]
                exact key pw sver (hitem v sver rfl hpv)
              · exact hrest x hx2 pv hpv2 hmv
        | some it =>
          obtain ⟨pit, hpit, hmit⟩ := hq it rfl
          cases hlt : sv.verLt pit sver with
          | true =>
            have hstep : msrvGo sv strptime (some rs) (some r) (v :: rest') (some it) =
                msrvGo sv strptime (some rs) (some r) rest' (some v) := by
              simp only [msrvGo, hpv, hm, if_true, hpit, hlt]
            have hqv : qualifies sv rs v := ⟨sver, hpv, hm⟩
            obtain ⟨res, hrun, hnone, hsome⟩ := ih (some v)
              (fun x hx => by rw [← Option.some.inj hx]; exact hqv)
            refine ⟨res, hstep.trans hrun, ?_, ?_⟩
            · intro hres
              exact absurd (hnone hres).1 (by simp)
            · intro w hw
              obtain ⟨hqw, hpos, hmax⟩ := hsome w hw
              refine ⟨hqw, ?_, ?_⟩
              · rcases hpos with h | h
                · exact Or.inr (by rw [← Option.some.inj h]; exact List.mem_cons_self v rest')
                · exact Or.inr (List.mem_cons_of_mem v h)
              · intro pw hpw
                obtain ⟨hrest, hitem⟩ := hmax pw hpw
                have hch : sver = pw ∨ sv.verLt sver pw = true := hitem v sver rfl hpv
                refine ⟨?_, ?_⟩
                · intro x hx pv hpv2 hmv
                  rcases List.mem_cons.mp hx with hx1 | hx2
                  · rw [hx1] at hpv2
                    rw [hpv] at hpv2
                    rw [← Option.some.inj hpv2]
                    exact key pw sver hch
                  · exact hrest x hx2 pv hpv2 hmv
                · intro it0 pit0 hit0 hpit0
                  have hit0' : it = it0 := Option.some.inj hit0
                  rw [← hit0'] at hpit0
                  rw [hpit] at hpit0
                  have hpp : pit = pit0 := Option.some.inj hpit0
                  rw [← hpp]
                  refine Or.inr ?_
                  rcases hch with he | hlt2
                  · rw [← he]
                    exact hlt
                  · exact htr pit sver pw hlt hlt2
          | false =>
            have hstep : msrvGo sv strptime (some rs) (some r) (v :: rest') (some it) =
                msrvGo sv strptime (some rs) (some r) rest' (some it) := by
              simp only [msrvGo, hpv, hm, if_true, hpit, hlt, Bool.false_eq_true, if_false]
            obtain ⟨res, hrun, hnone, hsome⟩ := ih (some it) hq
            refine ⟨res, hstep.trans hrun, ?_, ?_⟩
            · intro hres
              exact absurd (hnone hres).1 (by simp)
            · intro w hw
              obtain ⟨hqw, hpos, hmax⟩ := hsome w hw
              refine ⟨hqw, ?_, ?_⟩
              · rcases hpos with h | h
                · exact Or.inl h
                · exact Or.inr (List.mem_cons_of_mem v h)
              · intro pw hpw
                obtain ⟨hrest, hitem⟩ := hmax pw hpw
                have hch : pit = pw ∨ sv.verLt pit pw = true := hitem it pit rfl hpit
                refine ⟨?_, hitem⟩
                intro x hx pv hpv2 hmv
                rcases List.mem_cons.mp hx with hx1 | hx2
                · rw [hx1] at hpv2
                  rw [hpv] at hpv2
                  rw [← Option.some.inj hpv2]
                  exact key2 pit sver pw hlt hch
                · exact hrest x hx2 pv hpv2 hmv

/-- Claim C2: for every candidate list and requirement string that parses
as a valid range (under a semantic-version collaborator whose strict order
is irreflexive and transitive — true of the library's precedence order,
partial versions included), the selector never raises and returns a
candidate that parses and satisfies the range with no other qualifying
candidate strictly greater; when no candidate qualifies it returns `None`
(no fallback to latest-by-date). -/
theorem C2_range_selection (sv : SemverLib) (strptime : String → Option DateTime)
    (versions : List VersionRecord) (r : String) (rs : sv.SpecT)
    (hr : r ≠ "") (hps : sv.parseSpec r = some rs)
    (hirr : ∀ a, sv.verLt a a = false)
    (htr : ∀ a b c, sv.verLt a b = true → sv.verLt b c = true → sv.verLt a c = true) :
    ∃ res, max_satisfying_repo_version sv strptime versions (some r) = .ok res ∧
      (res = none ↔ ∀ v ∈ versions, ¬ qualifies sv rs v) ∧
      (∀ w, res = some w → w ∈ versions ∧ qualifies sv rs w ∧
        ∀ v ∈ versions, ∀ pw pv, sv.parseVer w.version = some pw →
          sv.parseVer v.version = some pv → sv.specMatch rs pv = true →
          sv.verLt pw pv = false) := by
  have ht : pyTruthy (some r) = true := by simp [pyTruthy, hr]
  have hred : max_satisfying_repo_version sv strptime versions (some r) =
      msrvGo sv strptime (some rs) (some r) versions none := by
    unfold max_satisfying_repo_version
    rw [ht]
    simp only [if_true, hps]
  obtain ⟨res, hrun, hnone, hsome⟩ :=
    msrvGo_range_loop sv strptime rs r hirr htr versions none (by simp)
  refine ⟨res, hred.trans hrun, ?_, ?_⟩
  · constructor
    · intro hres
      exact (hnone hres).2
    · intro hall
      cases hres : res with
      | none => rfl
      | some w =>
        obtain ⟨hqw, hpos, _⟩ := hsome w hres
        rcases hpos with h | h
        · exact Option.noConfusion h
        · exact absurd hqw (hall w h)
  · intro w hw
    obtain ⟨hqw, hpos, hmax⟩ := hsome w hw
    have hwin : w ∈ versions := by
      rcases hpos with h | h
      · exact Option.noConfusion h
      · exact h
    refine ⟨hwin, hqw, ?_⟩
    intro v hv pw pv hpw hpv hmv
    exact (hmax pw hpw).1 v hv pv hpv hmv

/-- Claim C2 witness: with the range `">=2"` over candidates `1`, `3`, `2`,
the selector returns the maximal qualifying candidate `3`. -/
theorem C2_witness :
    ∃ res, max_satisfying_repo_version toySemver toyStrptime
        [⟨"1", "a"⟩, ⟨"3", "b"⟩, ⟨"2", "c"⟩] (some ">=2") = .ok res ∧
      (res = none ↔ ∀ v ∈ ([⟨"1", "a"⟩, ⟨"3", "b"⟩, ⟨"2", "c"⟩] : List VersionRecord),
        ¬ qualifies toySemver 2 v) ∧
      (∀ w, res = some w → w ∈ ([⟨"1", "a"⟩, ⟨"3", "b"⟩, ⟨"2", "c"⟩] : List VersionRecord) ∧
        qualifies toySemver 2 w ∧
        ∀ v ∈ ([⟨"1", "a"⟩, ⟨"3", "b"⟩, ⟨"2", "c"⟩] : List VersionRecord),
          ∀ pw pv, toySemver.parseVer w.version = some pw →
            toySemver.parseVer v.version = some pv → toySemver.specMatch 2 pv = true →
            toySemver.verLt pw pv = false) :=
  C2_range_selection toySemver toyStrptime [⟨"1", "a"⟩, ⟨"3", "b"⟩, ⟨"2", "c"⟩] ">=2" 2
    (by decide) (by decide)
    (fun a => by simp [toySemver])
    (fun a b c h1 h2 => by
      simp only [toySemver, decide_eq_true_eq] at h1 h2 ⊢
      omega)

/-- Claim C3: for every filter dict with a `name` key, a registry result of
zero matches makes the resolver raise `LibNotFound` carrying the original
filters, and a result of exactly one match returns that entry — regardless
of the prompt setting and of the interactive pick, i.e. without any prompt
or ambiguity handling. -/
theorem C3_zero_or_one_matches (api : String → SearchResult) (enable_prompts : Bool)
    (pick : List String → String) (filters : PyDict) (silent : Bool)
    (hname : dictContains filters "name" = true) :
    ((api (queryString filters)).total = 0 →
      search_for_library api enable_prompts pick filters silent =
        .error (.libNotFound filters)) ∧
    (∀ x xs, (api (queryString filters)).total = 1 →
      (api (queryString filters)).items = x :: xs →
      search_for_library api enable_prompts pick filters silent = .ok x) := by
  constructor
  · intro h0
    unfold search_for_library
    rw [hname]
    simp only [Bool.not_true, Bool.false_eq_true, if_false, h0]
    norm_num
  · intro x xs h1 hx
    unfold search_for_library
    rw [hname]
    simp only [Bool.not_true, Bool.false_eq_true, if_false, h1, hx, if_true, List.head?]

/-- Claim C3 witness: a one-match registry answer is returned as is; the
zero-match conjunct of the theorem is instantiated vacuously. -/
theorem C3_witness :
    (((fun _ => (⟨1, [⟨7, "foo"⟩]⟩ : SearchResult)) (queryString [("name", PyVal.str "foo")])).total
        = 0 →
      search_for_library (fun _ => ⟨1, [⟨7, "foo"⟩]⟩) true (fun _ => "junk")
          [("name", PyVal.str "foo")] false =
        .error (.libNotFound [("name", PyVal.str "foo")])) ∧
    (∀ x xs,
      ((fun _ => (⟨1, [⟨7, "foo"⟩]⟩ : SearchResult)) (queryString [("name", PyVal.str "foo")])).total
        = 1 →
      ((fun _ => (⟨1, [⟨7, "foo"⟩]⟩ : SearchResult)) (queryString [("name", PyVal.str "foo")])).items
        = x :: xs →
      search_for_library (fun _ => ⟨1, [⟨7, "foo"⟩]⟩) true (fun _ => "junk")
          [("name", PyVal.str "foo")] false = .ok x) :=
  C3_zero_or_one_matches (fun _ => ⟨1, [⟨7, "foo"⟩]⟩) true (fun _ => "junk")
    [("name", PyVal.str "foo")] false (by decide)

/-- Claim C8: with the interactive-prompt setting disabled and a registry
result of more than one match, the resolver deterministically returns the
first result in the registry's returned order, for every possible prompt
function — no prompting takes place. -/
theorem C8_first_result_when_prompts_disabled (api : String → SearchResult)
    (pick : List String → String) (filters : PyDict) (silent : Bool)
    (x : SearchItem) (xs : List SearchItem)
    (hname : dictContains filters "name" = true)
    (htotal : (api (queryString filters)).total > 1)
    (hitems : (api (queryString filters)).items = x :: xs) :
    search_for_library api false pick filters silent = .ok x := by
  have hne1 : ¬((api (queryString filters)).total = 1) := by omega
  unfold search_for_library
  rw [hname]
  simp only [Bool.not_true, Bool.false_eq_true, if_false, hne1, hitems, htotal, if_true,
    Bool.not_false, List.head?]

/-- Claim C8 witness: two matches, prompts disabled, and a prompt function
that would return garbage — the first result is still returned. -/
theorem C8_witness :
    search_for_library (fun _ => ⟨2, [⟨1, "a"⟩, ⟨2, "b"⟩]⟩) false (fun _ => "junk")
        [("name", PyVal.str "foo")] false = .ok ⟨1, "a"⟩ :=
  C8_first_result_when_prompts_disabled (fun _ => ⟨2, [⟨1, "a"⟩, ⟨2, "b"⟩]⟩)
    (fun _ => "junk") [("name", PyVal.str "foo")] false ⟨1, "a"⟩ [⟨2, "b"⟩]
    (by decide) (by decide) rfl

/-- Claim C1 counterexample: in an environment where the requested library
is already installed (the store reports `/pkgs/foo` for the resolved
identity), `install` returns `None` — it does *not* return the existing
install path, because line 153 of the source is a bare `return`. -/
theorem C1_counterexample :
    install alreadyInstalledEnv 3 "foo" none false true = .ok none ∧
    alreadyInstalledEnv.get_installed_dir "id=7" none none = some "/pkgs/foo" ∧
    install alreadyInstalledEnv 3 "foo" none false true ≠ .ok (some "/pkgs/foo") := by
  refine ⟨by decide, rfl, by decide⟩

/-- Claim C1 as amended: when the library is already installed locally
under a satisfying (name, requirement, url) triple at the time `install` is
called, the call returns `None` (the existing path is discarded, not
returned) and performs zero recursive dependency installs — the statement
holds for every fuel bound, in particular for bound `1`, under which any
recursive dependency install would fail with `outOfFuel`. -/
theorem C1_already_installed_returns_none (env : InstallEnv) (fuel : Nat) (name : String)
    (requirements : Option PyVal) (silent trigger_event : Bool)
    (pn rn : String) (preq : Option PyVal) (purl : Option String) (pkg_dir : String)
    (hparse : env.parse_pkg_name name requirements = (pn, preq, purl))
    (hrn : (purl = none ∧ ∃ i, _get_pkg_id_by_name env pn preq silent = .ok i ∧
        rn = "id=" ++ pyIntToStr i) ∨ (∃ u, purl = some u ∧ rn = pn))
    (halready : (env.get_installed_dir rn preq purl).isSome = true)
    (hbase : env.base_install (if purl.isSome then name else rn) preq silent trigger_event =
      .ok pkg_dir) :
    install env (fuel + 1) name requirements silent trigger_event = .ok none := by
  rcases hrn with ⟨hu, i, hid, hrneq⟩ | ⟨u, hu, hrneq⟩
  · subst hu
    subst hrneq
    simp only [install, hparse, hid, hbase, halready, if_true]
  · subst hu
    subst hrneq
    simp only [install, hparse, hbase, halready, if_true]

/-- Claim C1 witness: with fuel bound `1` (no budget for any recursive
install at all) the already-installed call still completes and returns
`None`, so the dependency loop was never entered. -/
theorem C1_witness :
    install alreadyInstalledEnv 1 "foo" none false true = .ok none :=
  C1_already_installed_returns_none alreadyInstalledEnv 0 "foo" none false true
    "foo" "id=7" none none "/pkgs/foo" rfl
    (Or.inl ⟨rfl, 7, by decide, by decide⟩) (by decide) rfl

theorem installDepsLoop_append_error (step : PyDict → Except PyErr Unit)
    (pre : List PyDict) (bad : PyDict) (post : List PyDict) (e : PyErr)
    (hpre : ∀ f ∈ pre, step f = .ok ())
    (hbad : step bad = .error e) :
    installDepsLoop step (pre ++ bad :: post) = .error e := by
  induction pre with
  | nil => simp only [List.nil_append, installDepsLoop, hbad]
  | cons p ps ih =>
    have hp := hpre p (List.mem_cons_self p ps)
    simp only [List.cons_append, installDepsLoop, hp]
    exact ih (fun f hf => hpre f (List.mem_cons_of_mem p hf))

/-- Claim C9: when the target itself installs freshly and, in the
normalized dependency list, every dependency before some `bad` one is
processed successfully while processing `bad` raises (`LibNotFound` from
resolution or `UndefinedPackageVersion` from version selection), that
exception propagates out of the parent `install` call unchanged — nothing
in the dependency loop catches or skips it. -/
theorem C9_dependency_error_propagates (env : InstallEnv) (fuel : Nat) (name : String)
    (requirements : Option PyVal) (silent trigger_event : Bool)
    (pn rn : String) (preq : Option PyVal) (purl : Option String) (pkg_dir : String)
    (rawdeps : RawDeps) (pre : List PyDict) (bad : PyDict) (post : List PyDict) (e : PyErr)
    (hparse : env.parse_pkg_name name requirements = (pn, preq, purl))
    (hrn : (purl = none ∧ ∃ i, _get_pkg_id_by_name env pn preq silent = .ok i ∧
        rn = "id=" ++ pyIntToStr i) ∨ (∃ u, purl = some u ∧ rn = pn))
    (hnotinst : env.get_installed_dir rn preq purl = none)
    (hbase : env.base_install (if purl.isSome then name else rn) preq silent trigger_event =
      .ok pkg_dir)
    (hdeps : (env.load_manifest pkg_dir).dependencies = some rawdeps)
    (hsplit : normalize_dependencies rawdeps = pre ++ bad :: post)
    (hpre : ∀ f ∈ pre,
      installOneDep (fun n r s t => install env fuel n r s t) env f silent trigger_event =
        .ok ())
    (hbad : installOneDep (fun n r s t => install env fuel n r s t) env bad silent
        trigger_event = .error e)
    (he : (∃ fl, e = .libNotFound fl) ∨ e = .undefinedPackageVersion) :
    install env (fuel + 1) name requirements silent trigger_event = .error e := by
  have hloop : installDepsLoop
      (fun filters =>
        installOneDep (fun n r s t => install env fuel n r s t) env filters silent
          trigger_event)
      (normalize_dependencies rawdeps) = .error e := by
    rw [hsplit]
    exact installDepsLoop_append_error _ pre bad post e hpre hbad
  rcases hrn with ⟨hu, i, hid, hrneq⟩ | ⟨u, hu, hrneq⟩
  · subst hu
    subst hrneq
    simp only [Option.isSome_none, Bool.false_eq_true, if_false] at hbase
    simp only [install, hparse, hid, hbase, hnotinst, hdeps, hloop, Option.isSome_none,
      Bool.false_eq_true, if_false]
  · subst hu
    subst hrneq
    simp only [Option.isSome_some, if_true] at hbase
    simp only [install, hparse, hbase, hnotinst, hdeps, hloop, Option.isSome_some,
      Option.isSome_none, if_true, Bool.false_eq_true, if_false]

/-- Claim C9 witness: the freshly installed target declares one dependency
`missing` which matches nothing in the registry; the `LibNotFound` raised
while resolving it propagates out of the top-level install call. -/
theorem C9_witness :
    install missingDepEnv 1 "id=1" none false true =
      .error (.libNotFound [("name", PyVal.str "missing")]) :=
  C9_dependency_error_propagates missingDepEnv 0 "id=1" none false true
    "id=1" "id=1" none none "/pkgs/top" (.pylist [[("name", PyVal.str "missing")]])
    [] [("name", PyVal.str "missing")] [] (.libNotFound [("name", PyVal.str "missing")])
    rfl (Or.inl ⟨rfl, 1, by decide, by decide⟩) rfl rfl rfl (by decide)
    (by simp) (by decide) (Or.inl ⟨_, rfl⟩)

end PlatformioLib
